import Mathlib

/-!
Verification development for TheStudio's iteration-and-feedback core:
the iterative kickoff loop (`src/studio/src/studio/iteration.py`), the
rejection-reason extractor and prompt injector (`src/studio/rerun.py`),
the scope iteration allocator (`src/studio/scopes.py`), and the model
fallback selector (`src/studio/src/studio/telemetry.py`).

Python strings are modelled as Lean `String`/`List Char`; Python `None`
as `Option.none`; raised exceptions as `Except.error`.  Regular
expressions from the source are translated into deterministic
character-list scanners implementing the leftmost-match, lazy/greedy
semantics of the concrete patterns used by the code.
-/

/-! ## String helpers (Python `str` semantics) -/

/-- The character class of Python's `\s` / `str.strip()` whitespace. -/
def isPySpace (c : Char) : Bool :=
  c = ' ' || c = '\t' || c = '\n' || c = '\r' || c = '\x0b' || c = '\x0c'

/-- ASCII uppercase of one character (Python `str.upper` on ASCII input). -/
def upChar (c : Char) : Char := c.toUpper

/-- ASCII lowercase of one character (Python `str.lower` on ASCII input). -/
def lowChar (c : Char) : Char := c.toLower

/-- Case-insensitive "starts with": the pattern is given in uppercase. -/
def ciStartsWith : List Char → List Char → Bool
  | [], _ => true
  | _ :: _, [] => false
  | p :: ps, c :: cs => upChar c = p && ciStartsWith ps cs

/-- Case-sensitive "starts with" on character lists. -/
def startsWithChars : List Char → List Char → Bool
  | [], _ => true
  | _ :: _, [] => false
  | p :: ps, c :: cs => p = c && startsWithChars ps cs

/-- Python's substring test `needle in hay`. -/
def containsChars (needle : List Char) : List Char → Bool
  | [] => startsWithChars needle []
  | c :: rest => startsWithChars needle (c :: rest) || containsChars needle rest

/-- Index of the first occurrence of a substring (Python `str.find`;
`none` models the `-1` result). -/
def subIdx (needle : List Char) : List Char → Option Nat
  | [] => if startsWithChars needle [] then some 0 else none
  | c :: rest =>
      if startsWithChars needle (c :: rest) then some 0
      else (subIdx needle rest).map (· + 1)

/-- Python `str.strip()`. -/
def pyStrip (s : List Char) : List Char :=
  ((s.dropWhile isPySpace).reverse.dropWhile isPySpace).reverse

/-- Python `str.upper()` (ASCII). -/
def pyUpper (s : String) : String := String.mk (s.toList.map upChar)

/-- Python `str.lower()` (ASCII). -/
def pyLower (s : String) : String := String.mk (s.toList.map lowChar)

/-- Python `str.split('\n')`. -/
def splitOnNl : List Char → List (List Char)
  | [] => [[]]
  | '\n' :: rest => [] :: splitOnNl rest
  | c :: rest =>
      match splitOnNl rest with
      | h :: t => (c :: h) :: t
      | [] => [[c]]

/-- Python `str.split('\n\n')` (leftmost, non-overlapping). -/
def splitOnNN : List Char → List (List Char)
  | [] => [[]]
  | '\n' :: '\n' :: rest => [] :: splitOnNN rest
  | c :: rest =>
      match splitOnNN rest with
      | h :: t => (c :: h) :: t
      | [] => [[c]]

/-- Python `'\n'.join(lines)`. -/
def joinNl : List String → String
  | [] => ""
  | [s] => s
  | s :: rest => s ++ "\n" ++ joinNl rest

/-! ## Verdict extractor (`src/studio/src/studio/verdict.py`)

`extract_verdict` searches for the case-insensitive regex
`VERDICT:\s*(APPROVED|REJECTED)` (first match wins, group uppercased). -/

/-- Leftmost scan for `VERDICT:` followed by optional whitespace and
`APPROVED`/`REJECTED` (case-insensitive); at each candidate position the
alternation tries `APPROVED` first, as the regex does. -/
def verdictScan : List Char → String
  | [] => "UNKNOWN"
  | c :: rest =>
      if ciStartsWith "VERDICT:".toList (c :: rest) then
        let after := ((c :: rest).drop 8).dropWhile isPySpace
        if ciStartsWith "APPROVED".toList after then "APPROVED"
        else if ciStartsWith "REJECTED".toList after then "REJECTED"
        else verdictScan rest
      else verdictScan rest

/-- `extract_verdict(text)` from `verdict.py`. -/
def extract_verdict (text : String) : String := verdictScan text.toList

/-! ## Iterative kickoff loop (`src/studio/src/studio/iteration.py`) -/

/-- One row of the loop's `history` list (the dict appended at each round;
the implementation round additionally carries a `phase` key). -/
structure IterationRecord where
  iteration : Nat
  result : String
  verdict : String
  phase : Option String := none
deriving DecidableEq

/-- The inputs dict built for one round (the keys the loop itself adds on
top of `base_inputs`; `previous_result`/`previous_verdict` are absent on
the first round). -/
structure IterationInputs where
  iteration : Nat
  max_iterations : Nat
  previous_result : Option String := none
  previous_verdict : Option String := none
  previous_feedback : String := ""
deriving DecidableEq

/-- The dict returned by `run_iterative_kickoff` (minus the telemetry
snapshots, which are reporting-only). -/
structure KickoffOutcome where
  result : String
  verdict : String
  iterations_run : Nat
  history : List IterationRecord
  accepted : Bool
  limit_reached : Bool
  max_iterations : Nat
deriving DecidableEq

/-- `_safe_max_iterations` restricted to integer/absent input: `None`
or a non-positive value falls back to 3. -/
def safe_max_iterations : Option Int → Nat
  | none => 3
  | some n => if n > 0 then n.toNat else 3

/-- Builds the per-round inputs exactly as the loop body does (lines
51-69 of `iteration.py`). -/
def buildInputs (cap : Nat) (history : List IterationRecord) (iteration : Nat) :
    IterationInputs :=
  match history.getLast? with
  | none => { iteration, max_iterations := cap }
  | some prev =>
      { iteration, max_iterations := cap
        previous_result := some prev.result
        previous_verdict := some prev.verdict
        previous_feedback :=
          if prev.verdict = "REJECTED" then
            "PREVIOUS REJECTION (Iteration " ++ toString prev.iteration ++ "):\n"
              ++ prev.result ++ "\n\nAddress these concerns in your revised proposal."
          else "" }

/-- The outer `for iteration in range(1, cap+1)` loop.  The agent-turn
capability `turn` receives the number of previous successful calls (how
the test harness scripts it) and the constructed inputs; `none` models
`crew.kickoff` returning Python `None`, which trips the
`if result is None: raise RuntimeError(...)` guard. -/
def kickoffLoop (turn : Nat → IterationInputs → Option String) (phase : String)
    (cap : Nat) :
    Nat → List IterationRecord → String → Except String (List IterationRecord × String)
  | 0, history, verdict => .ok (history, verdict)
  | fuel + 1, history, verdict =>
      let iteration := history.length + 1
      let inputs := buildInputs cap history iteration
      match turn history.length inputs with
      | none => .error "All configured models failed before producing a result."
      | some result_str =>
          let verdict' := if phase = "studio" then verdict else extract_verdict result_str
          let record : IterationRecord :=
            { iteration, result := result_str
              verdict := if phase = "studio" then "UNKNOWN" else verdict' }
          let history' := history ++ [record]
          if phase = "studio" ∨ verdict' = "APPROVED" then .ok (history', verdict')
          else kickoffLoop turn phase cap fuel history' verdict'

/-- The post-approval implementation step (lines 105-114): a truthy
(non-`None`, non-empty) implementation result appends one more record
with verdict `IMPLEMENTATION` and becomes the final result. -/
def applyImplementation (history : List IterationRecord) (final : IterationRecord) :
    Option String → List IterationRecord × IterationRecord
  | none => (history, final)
  | some impl =>
      if impl ≠ "" then
        let record : IterationRecord :=
          { iteration := history.length + 1, result := impl
            verdict := "IMPLEMENTATION", phase := some "implementation" }
        (history ++ [record], record)
      else (history, final)

/-- `run_iterative_kickoff(crew_factory, phase, base_inputs, max_iterations)`.
`implementation_turn` is the opaque `_run_implementation_phase`
collaborator; a `none`/empty result appends no implementation record
(Python truthiness of the returned string). -/
def run_iterative_kickoff (turn : Nat → IterationInputs → Option String)
    (implementation_turn : String → Option String)
    (phase : String) (max_iterations : Option Int) :
    Except String KickoffOutcome := do
  let iteration_cap := safe_max_iterations max_iterations
  let (history, verdict) ← kickoffLoop turn phase iteration_cap iteration_cap [] "UNKNOWN"
  let final := history.getLastD { iteration := 0, result := "", verdict := "UNKNOWN" }
  let (history2, final2) :=
    if verdict = "APPROVED" ∧ phase ≠ "studio" then
      applyImplementation history final (implementation_turn final.result)
    else (history, final)
  let accepted : Bool := decide (verdict = "APPROVED")
  let limit_reached : Bool :=
    decide (history2.length ≥ iteration_cap) && !accepted && decide (phase ≠ "studio")
  .ok { result := final2.result, verdict := final2.verdict
        iterations_run := history2.length, history := history2
        accepted := accepted, limit_reached := limit_reached
        max_iterations := iteration_cap }

/-- The scripted crew factory used by the test suite: each call consumes
the next response in the list. -/
def scriptTurn (responses : List String) : Nat → IterationInputs → Option String :=
  fun calls _ => responses.get? calls

/-! ## Scope iteration allocator (`src/studio/scopes.py`) -/

/-- `ScopeConfig` dataclass (its `__post_init__` invariant
`max_iterations ≥ 1` is carried as a hypothesis in the theorems). -/
structure ScopeConfig where
  name : String
  focus : String
  max_iterations : Nat
deriving DecidableEq

/-- `ScopesConfig` dataclass. -/
structure ScopesConfig where
  scopes : List ScopeConfig
deriving DecidableEq

/-- `ScopesConfig.total_iterations`. -/
def ScopesConfig.total_iterations (c : ScopesConfig) : Nat :=
  (c.scopes.map (·.max_iterations)).sum

/-- Upward scaling loop for binary64 rounding of the positive rational
`a / b`: double the numerator (tracking the power-of-two scale factor)
until the value reaches `2^52`; the fuel bounds the number of doublings
and is never exhausted at the magnitudes arising here. -/
def fpUp (b : Nat) : Nat → Nat → Nat → Nat × Nat
  | 0, a, s => (a, s)
  | f + 1, a, s =>
      if a < 4503599627370496 * b then fpUp b f (2 * a) (2 * s) else (a, s)

/-- Downward scaling loop for binary64 rounding: double the denominator
(halving the value, tracking the scale factor) until the value drops
below `2^53`. -/
def fpDown (a : Nat) : Nat → Nat → Nat → Nat × Nat
  | 0, b, t => (b, t)
  | f + 1, b, t =>
      if 9007199254740992 * b ≤ a then fpDown a f (2 * b) (2 * t) else (b, t)

/-- Round the positive rational `a / b` to the nearest IEEE binary64
value (53-bit significand, round-to-nearest, ties to even; exponent
range unbounded, so overflow and subnormals — which cannot occur at the
magnitudes the allocator handles — are not modelled). The result is the
rounded value as an exact dyadic fraction numerator/denominator. -/
def fpRound (a b : Nat) : Nat × Nat :=
  let p := fpUp b 1200 a 1
  let q := fpDown p.1 1200 b 1
  let n0 := p.1 / q.1
  let r2 := 2 * (p.1 % q.1)
  let n : Nat :=
    if r2 < q.1 then n0
    else if q.1 < r2 then n0 + 1
    else if n0 % 2 = 0 then n0 else n0 + 1
  (n * q.2, p.2)

/-- Python's float division `m / t` on non-negative integers: the exact
quotient rounded once to binary64 (as an exact fraction). -/
def pyDivFloat (m t : Nat) : Nat × Nat := fpRound m t

/-- Python's float multiplication `b * x` of an exactly representable
integer `b` with a float `x` (given as an exact fraction): the exact
product rounded once to binary64. -/
def pyMulFloat (b : Nat) (x : Nat × Nat) : Nat × Nat := fpRound (b * x.1) x.2

/-- The proportional share of a non-last scope (line 160):
`max(1, int(total_budget * (scope.max_iterations / config_total)))`,
with the division and the multiplication performed in IEEE binary64
arithmetic exactly as Python evaluates them, and `int()` truncating the
non-negative float result downward. -/
def scopeShare (budget config_total : Nat) (s : ScopeConfig) : Int :=
  let f := pyMulFloat budget (pyDivFloat s.max_iterations config_total)
  max 1 ((f.1 / f.2 : Nat) : Int)

/-- The proportional-scaling loop of `allocate_iterations` (lines
153-162): every scope but the last gets its `scopeShare`; the last
scope absorbs the remaining budget, which can be ≤ 0 in pathological
inputs, hence `Int`-valued shares. -/
def allocLoop (budget config_total : Nat) :
    List ScopeConfig → Int → List (String × Int)
  | [], _ => []
  | [s], remaining => [(s.name, remaining)]
  | s :: s2 :: rest, remaining =>
      let allocated : Int := scopeShare budget config_total s
      (s.name, allocated) :: allocLoop budget config_total (s2 :: rest) (remaining - allocated)

/-- `allocate_iterations(scopes_config, total_budget)`.  The returned
Python dict is modelled as an association list in insertion order. -/
def allocate_iterations (cfg : ScopesConfig) (total_budget : Option Nat) :
    List (String × Int) :=
  let config_total := cfg.total_iterations
  match total_budget with
  | none => cfg.scopes.map fun s => (s.name, (s.max_iterations : Int))
  | some budget =>
      if budget = config_total then cfg.scopes.map fun s => (s.name, (s.max_iterations : Int))
      else allocLoop budget config_total cfg.scopes (budget : Int)

/-! ## Rejection reason extractor (`src/studio/rerun.py`)

The regex-based parsing strategies are translated into character-list
scanners implementing the leftmost-match semantics of the concrete
patterns (lazy `(.+?)` = minimal extension, greedy `\s*` = maximal run,
with the backtracking the patterns actually exercise). -/

/-- Lazy closing scan for one `\*\*(.+?)\*\*` match: minimal non-empty
content (no newline, since DOTALL is not set for the cleanup patterns)
followed by `**`. -/
def boldClose : List Char → Option (List Char × List Char)
  | c :: '*' :: '*' :: r => if c = '\n' then none else some ([c], r)
  | c :: rest =>
      if c = '\n' then none
      else (boldClose rest).map (fun p => (c :: p.1, p.2))
  | [] => none

/-- `re.sub(r'\*\*(.+?)\*\*', r'\1', s)`: one left-to-right pass,
continuing after each replacement.  Fuelled for structural recursion;
`s.length` steps always suffice since every step consumes a character. -/
def subBoldF : Nat → List Char → List Char
  | 0, s => s
  | _ + 1, [] => []
  | fuel + 1, '*' :: '*' :: rest =>
      (match boldClose rest with
       | some (content, r) => content ++ subBoldF fuel r
       | none => '*' :: subBoldF fuel ('*' :: rest))
  | fuel + 1, c :: rest => c :: subBoldF fuel rest

/-- Bold-marker removal pass. -/
def subBold (s : List Char) : List Char := subBoldF s.length s

/-- Lazy closing scan for one `\*(.+?)\*` match. -/
def italClose : List Char → Option (List Char × List Char)
  | c :: '*' :: r => if c = '\n' then none else some ([c], r)
  | c :: rest =>
      if c = '\n' then none
      else (italClose rest).map (fun p => (c :: p.1, p.2))
  | [] => none

/-- `re.sub(r'\*(.+?)\*', r'\1', s)`, one pass. -/
def subItalF : Nat → List Char → List Char
  | 0, s => s
  | _ + 1, [] => []
  | fuel + 1, '*' :: rest =>
      (match italClose rest with
       | some (content, r) => content ++ subItalF fuel r
       | none => '*' :: subItalF fuel rest)
  | fuel + 1, c :: rest => c :: subItalF fuel rest

/-- Italic-marker removal pass. -/
def subItal (s : List Char) : List Char := subItalF s.length s

/-- The backtick character, written by code point. -/
def btChar : Char := Char.ofNat 96

/-- Lazy closing scan for one inline-code match (backtick-delimited). -/
def codeClose : List Char → Option (List Char × List Char)
  | c :: d :: r =>
      if c = '\n' then none
      else if d = btChar then some ([c], r)
      else (codeClose (d :: r)).map (fun p => (c :: p.1, p.2))
  | _ => none

/-- Inline-code removal pass (the backtick analogue of `subBoldF`). -/
def subCodeF : Nat → List Char → List Char
  | 0, s => s
  | _ + 1, [] => []
  | fuel + 1, c :: rest =>
      if c = btChar then
        match codeClose rest with
        | some (content, r) => content ++ subCodeF fuel r
        | none => c :: subCodeF fuel rest
      else c :: subCodeF fuel rest

/-- Inline-code removal pass. -/
def subCode (s : List Char) : List Char := subCodeF s.length s

/-- The final cleanup applied to every candidate reason (lines 195-198):
strip bold, then italic, then inline code, then whitespace. -/
def cleanChars (s : List Char) : List Char :=
  pyStrip (subCode (subItal (subBold s)))

/-- `cleanReason` on strings. -/
def cleanReason (r : String) : String := String.mk (cleanChars r.toList)

/-! ### Strategy 1: section scoping -/

/-- The capture `(.+?)(?=\n##|$)` with DOTALL and no MULTILINE: consume
until just before `\n##`, just before a final newline, or the end. -/
def capStopA : List Char → List Char
  | [] => []
  | ['\n'] => []
  | '\n' :: '#' :: '#' :: _ => []
  | c :: rest => c :: capStopA rest

/-- The same capture requiring at least one character (`+`). -/
def captureA : List Char → Option (List Char)
  | [] => none
  | c :: rest => some (c :: capStopA rest)

/-- The `.+?\n\n` chunk before the capture group: lazily search for the
first `\n\n` preceded by at least one character, then capture; extend on
capture failure (which only happens at the very end of input). -/
def chunkScanF : Nat → List Char → Option (List Char)
  | 0, _ => none
  | _ + 1, [] => none
  | fuel + 1, c :: rest =>
      if c = '\n' ∧ rest.head? = some '\n' then
        (match captureA rest.tail with
         | some g => some g
         | none => chunkScanF fuel rest)
      else chunkScanF fuel rest

/-- `.+?\n\n(.+?)(?=\n##|$)` starting at the given text. -/
def chunkCap : List Char → Option (List Char)
  | [] => none
  | _ :: rest => chunkScanF (rest.length + 1) rest

/-- The `\s*\n\n` between the section keyword and the body: a greedy
whitespace run ending at the last `\n\n` inside it, backtracking to an
earlier `\n\n` when the rest of the pattern fails. -/
def tryKs (R rest : List Char) : Nat → Option (List Char)
  | 0 =>
      if R.get? 0 = some '\n' ∧ R.get? 1 = some '\n' then chunkCap (R.drop 2 ++ rest)
      else none
  | k + 1 =>
      if R.get? (k + 1) = some '\n' ∧ R.get? (k + 2) = some '\n' then
        match chunkCap (R.drop (k + 3) ++ rest) with
        | some g => some g
        | none => tryKs R rest k
      else tryKs R rest k

/-- Everything of a section pattern after the keyword:
`\s*\n\n.+?\n\n(.+?)(?=\n##|$)`. -/
def secAfterKeyword (t : List Char) : Option (List Char) :=
  let R := t.takeWhile isPySpace
  tryKs R (t.drop R.length) (R.length - 2)

/-- The `Issues?`/`Reasons?`/`Concerns?` keyword (case-insensitive,
optional plural `s`) followed by the rest of the section pattern. -/
def secBase (base : List Char) (t : List Char) : Option (List Char) :=
  if ciStartsWith base t then
    let t1 := t.drop base.length
    let t2 := if ciStartsWith ['S'] t1 then t1.drop 1 else t1
    secAfterKeyword t2
  else none

/-- A match attempt just after a literal `##`: `\s*` then the optional
prefix word (`Critical`/`Rejection`, tried first as the regex does, with
fallback to the bare keyword on failure). -/
def secTryAt (optWord : Option (List Char)) (base : List Char)
    (afterHash : List Char) : Option (List Char) :=
  let t := afterHash.dropWhile isPySpace
  let presentPath : Option (List Char) :=
    match optWord with
    | none => none
    | some w =>
        if ciStartsWith w t then
          let t1 := t.drop w.length
          let ws := t1.takeWhile isPySpace
          if ws.isEmpty then none else secBase base (t1.drop ws.length)
        else none
  match presentPath with
  | some g => some g
  | none => secBase base t

/-- Leftmost `re.search` for one section pattern: scan for `##` and
attempt the header match at each occurrence. -/
def secScanF (optWord : Option (List Char)) (base : List Char) :
    Nat → List Char → Option (List Char)
  | 0, _ => none
  | _ + 1, [] => none
  | fuel + 1, '#' :: '#' :: rest =>
      (match secTryAt optWord base rest with
       | some g => some g
       | none => secScanF optWord base fuel ('#' :: rest))
  | fuel + 1, _ :: rest => secScanF optWord base fuel rest

/-- `re.search` for one section pattern over the whole text. -/
def secScan (optWord : Option (List Char)) (base : List Char)
    (content : List Char) : Option (List Char) :=
  secScanF optWord base (content.length + 1) content

/-- The three `section_patterns` tried in order (lines 109-120). -/
def sectionScope (content : List Char) : Option (List Char) :=
  match secScan (some "CRITICAL".toList) "ISSUE".toList content with
  | some g => some g
  | none =>
      match secScan (some "REJECTION".toList) "REASON".toList content with
      | some g => some g
      | none => secScan none "CONCERN".toList content

/-- One attempt of `VERDICT:\s*REJECTED.*?(?=\n##|$)` (case-insensitive,
group 0 keeps the original text). -/
def vfTryAt (s : List Char) : Option (List Char) :=
  if ciStartsWith "VERDICT:".toList s then
    let afterV := s.drop 8
    let ws := afterV.takeWhile isPySpace
    let afterW := afterV.drop ws.length
    if ciStartsWith "REJECTED".toList afterW then
      some (s.take 8 ++ ws ++ afterW.take 8 ++ capStopA (afterW.drop 8))
    else none
  else none

/-- Leftmost `re.search` for the `VERDICT: REJECTED` fallback. -/
def vfScanF : Nat → List Char → Option (List Char)
  | 0, _ => none
  | _ + 1, [] => none
  | fuel + 1, c :: rest =>
      match vfTryAt (c :: rest) with
      | some g => some g
      | none => vfScanF fuel rest

/-- `re.search` wrapper for the verdict fallback. -/
def vfScan (content : List Char) : Option (List Char) :=
  vfScanF (content.length + 1) content

/-- `section_content` selection (lines 115-129): a matching section
header's body, else the `VERDICT: REJECTED` tail, else the full text. -/
def scopedContent (content : List Char) : List Char :=
  match sectionScope content with
  | some s => s
  | none =>
      match vfScan content with
      | some s => s
      | none => content

/-! ### Strategies 2-5 -/

/-- The `\s*-\s*(.+?)` tail of the numbered-bold pattern after the
closing `**`: optional whitespace, a dash, optional whitespace, then the
(non-empty) rest of the line (the `(?=\n\d+\.|\n\n|$)` lookahead with
MULTILINE `$` stops the lazy group at the first newline). -/
def nbDashDesc (tail : List Char) : Option (List Char × List Char) :=
  match tail.dropWhile isPySpace with
  | '-' :: t2 =>
      let t3 := t2.dropWhile isPySpace
      let desc := t3.takeWhile (fun c => ¬(c = '\n'))
      if desc.isEmpty then none else some (desc, t3.drop desc.length)
  | _ => none

/-- Lazy scan for the `(.+?)\*\*` group of the numbered-bold pattern
(DOTALL: content may span newlines), extending past a closing `**` whose
tail fails the `\s*-\s*...` continuation, as the regex backtracks. -/
def nbClose : List Char → Option (List Char × List Char × List Char)
  | [] => none
  | c :: rest =>
      match rest with
      | '*' :: '*' :: tail =>
          (match nbDashDesc tail with
           | some (desc, r) => some ([c], desc, r)
           | none => (nbClose rest).map (fun p => (c :: p.1, p.2.1, p.2.2)))
      | _ => (nbClose rest).map (fun p => (c :: p.1, p.2.1, p.2.2))

/-- One anchored attempt of
`^\s*\d+\.\s*\*\*(.+?)\*\*\s*-\s*(.+?)(?=\n\d+\.|\n\n|$)`. -/
def nbTryMatch (l : List Char) : Option (String × String × List Char) :=
  let l1 := l.dropWhile isPySpace
  let digits := l1.takeWhile Char.isDigit
  if digits.isEmpty then none
  else
    match l1.drop digits.length with
    | '.' :: l2 =>
        (match l2.dropWhile isPySpace with
         | '*' :: '*' :: l4 =>
             match nbClose l4 with
             | some (title, desc, r) =>
                 some (String.mk (pyStrip title), String.mk (pyStrip desc), r)
             | none => none
         | _ => none)
    | _ => none

/-- `re.finditer` driver for the numbered-bold pattern: attempts only at
line starts (MULTILINE `^`), continues after each match. -/
def nbScanF : Nat → Bool → List Char → List String
  | 0, _, _ => []
  | _ + 1, _, [] => []
  | fuel + 1, atStart, c :: rest =>
      if atStart then
        match nbTryMatch (c :: rest) with
        | some (title, desc, r) => (title ++ " - " ++ desc) :: nbScanF fuel false r
        | none => nbScanF fuel (c = '\n') rest
      else nbScanF fuel (c = '\n') rest

/-- Pattern 1 (lines 131-141): `N. **Title** - description` items. -/
def numberedBold (sec : List Char) : List String :=
  nbScanF (sec.length + 1) true sec

/-- One anchored attempt of `^\s*\d+\.\s*(.+?)(?=\n\d+\.|\n\n|$)`:
the lazy group is the non-empty rest of the line. -/
def snTryMatch (l : List Char) : Option (List Char × List Char) :=
  let l1 := l.dropWhile isPySpace
  let digits := l1.takeWhile Char.isDigit
  if digits.isEmpty then none
  else
    match l1.drop digits.length with
    | '.' :: l2 =>
        let l3 := l2.dropWhile isPySpace
        let content := l3.takeWhile (fun c => ¬(c = '\n'))
        if content.isEmpty then none else some (content, l3.drop content.length)
    | _ => none

/-- Per-item processing of pattern 2 (lines 148-154): strip, remove
bold/italic markers, strip again, keep items longer than 10. -/
def snClean (g : List Char) : Option String :=
  let r := pyStrip (subItal (subBold (pyStrip g)))
  if r.length > 10 then some (String.mk r) else none

/-- `re.finditer` driver for the simple-numbered pattern. -/
def snScanF : Nat → Bool → List Char → List (List Char)
  | 0, _, _ => []
  | _ + 1, _, [] => []
  | fuel + 1, atStart, c :: rest =>
      if atStart then
        match snTryMatch (c :: rest) with
        | some (g, r) => g :: snScanF fuel false r
        | none => snScanF fuel (c = '\n') rest
      else snScanF fuel (c = '\n') rest

/-- Pattern 2 (lines 143-154): simple `N. reason` items. -/
def simpleNumbered (sec : List Char) : List String :=
  (snScanF (sec.length + 1) true sec).filterMap snClean

/-- One anchored attempt of `^\s*[-*]\s*(.+?)(?=\n\s*[-*]|\n\n|$)`
(MULTILINE, no DOTALL): bullet marker then the non-empty rest of the
line. -/
def bulTryMatch (l : List Char) : Option (List Char × List Char) :=
  match l.dropWhile isPySpace with
  | c :: l2 =>
      if c = '-' ∨ c = '*' then
        let l3 := l2.dropWhile isPySpace
        let content := l3.takeWhile (fun ch => ¬(ch = '\n'))
        if content.isEmpty then none else some (content, l3.drop content.length)
      else none
  | [] => none

/-- Per-item processing of pattern 3 (lines 160-163). -/
def bulClean (g : List Char) : Option String :=
  let r := pyStrip g
  if r.length > 10 then some (String.mk r) else none

/-- `re.finditer` driver for the bullet pattern. -/
def bulScanF : Nat → Bool → List Char → List (List Char)
  | 0, _, _ => []
  | _ + 1, _, [] => []
  | fuel + 1, atStart, c :: rest =>
      if atStart then
        match bulTryMatch (c :: rest) with
        | some (g, r) => g :: bulScanF fuel false r
        | none => bulScanF fuel (c = '\n') rest
      else bulScanF fuel (c = '\n') rest

/-- Pattern 3 (lines 156-163): `- reason` / `* reason` items. -/
def bullets (sec : List Char) : List String :=
  (bulScanF (sec.length + 1) true sec).filterMap bulClean

/-- The capture of pattern 4, `(.+?)(?=\n##|\n\*\*|$)` with DOTALL. -/
def capStopB : List Char → List Char
  | [] => []
  | ['\n'] => []
  | '\n' :: '#' :: '#' :: _ => []
  | '\n' :: '*' :: '*' :: _ => []
  | c :: rest => c :: capStopB rest

/-- Pattern 4's capture requiring at least one character. -/
def captureB : List Char → Option (List Char)
  | [] => none
  | c :: rest => some (c :: capStopB rest)

/-- One keyword alternative of `(?:Reasons?|Concerns?|Issues?):`
(case-insensitive), returning the rest after the colon. -/
def rbWord (w : List Char) (s : List Char) : Option (List Char) :=
  if ciStartsWith w s then
    let t := s.drop w.length
    let t2 := if ciStartsWith ['S'] t then t.drop 1 else t
    match t2 with
    | ':' :: r => some r
    | _ => none
  else none

/-- The keyword alternation of pattern 4, in the regex's order. -/
def rbKeyAt (s : List Char) : Option (List Char) :=
  match rbWord "REASON".toList s with
  | some r => some r
  | none =>
      match rbWord "CONCERN".toList s with
      | some r => some r
      | none => rbWord "ISSUE".toList s

/-- The `\s*\n` after the colon: greedy whitespace ending at the last
newline of the run, backtracking to earlier newlines on failure. -/
def rbTryNl (R rest : List Char) : Nat → Option (List Char)
  | 0 => if R.get? 0 = some '\n' then captureB (R.drop 1 ++ rest) else none
  | k + 1 =>
      if R.get? (k + 1) = some '\n' then
        match captureB (R.drop (k + 2) ++ rest) with
        | some g => some g
        | none => rbTryNl R rest k
      else rbTryNl R rest k

/-- The rest of pattern 4 after the colon. -/
def rbAfterKey (t : List Char) : Option (List Char) :=
  let R := t.takeWhile isPySpace
  rbTryNl R (t.drop R.length) (R.length - 1)

/-- Leftmost `re.search` for pattern 4 (lines 166-171). -/
def rbScanF : Nat → List Char → Option (List Char)
  | 0, _ => none
  | _ + 1, [] => none
  | fuel + 1, c :: rest =>
      match
        (match rbKeyAt (c :: rest) with
         | some t => rbAfterKey t
         | none => none)
      with
      | some g => some g
      | none => rbScanF fuel rest

/-- `re.search` wrapper for pattern 4. -/
def rbScan (sec : List Char) : Option (List Char) :=
  rbScanF (sec.length + 1) sec

/-- Line processing of pattern 4's block (lines 173-178): strip, remove
leading `-`/`*`/`•` markers, strip, keep lines longer than 10. -/
def rbLines (g : List Char) : List String :=
  (splitOnNl g).filterMap fun line =>
    let l := pyStrip ((pyStrip line).dropWhile
      (fun c => c = '-' || c = '*' || c = Char.ofNat 0x2022))
    if l.length > 10 then some (String.mk l) else none

/-- Pattern 5 (lines 180-189): paragraph fallback — split on blank
lines, take the first three non-empty paragraphs, skip the verdict line,
keep paragraphs longer than 20 not starting with `#`. -/
def paragraphReasons (sec : List Char) : List String :=
  let paras := ((splitOnNN sec).map pyStrip).filter (fun p => ¬p.isEmpty)
  (paras.take 3).filterMap fun para =>
    if containsChars "VERDICT:".toList (para.map upChar) then none
    else if para.length > 20 ∧ ¬(startsWithChars ['#'] para) then some (String.mk para)
    else none

/-- The strategy cascade over the scoped section content (first
non-empty strategy wins), before final cleanup. -/
def strategyReasons (sec : List Char) : List String :=
  let r1 := numberedBold sec
  if ¬r1.isEmpty then r1
  else
    let r2 := simpleNumbered sec
    if ¬r2.isEmpty then r2
    else
      let r3 := bullets sec
      if ¬r3.isEmpty then r3
      else
        let r4 := match rbScan sec with
          | some g => rbLines g
          | none => []
        if ¬r4.isEmpty then r4
        else paragraphReasons sec

/-- `extract_rejection_reasons(contrarian_content)` from `rerun.py`. -/
def extract_rejection_reasons (contrarian_content : String) : List String :=
  if ¬containsChars "REJECTED".toList (contrarian_content.toList.map upChar) then []
  else
    ((strategyReasons (scopedContent contrarian_content.toList)).map cleanReason).filter
      (fun r => r.length > 15) |>.take 5

/-! ## Prompt context injector (`src/studio/rerun.py`, lines 239-285) -/

/-- `RejectionContext` dataclass. -/
structure RejectionContext where
  iteration : Nat
  role : Option String
  reasons : List String
  full_text : String

/-- The numbered list built by `format_for_prompt`. -/
def numberReasons : Nat → List String → List String
  | _, [] => []
  | i, r :: rs => (toString i ++ ". " ++ r) :: numberReasons (i + 1) rs

/-- `RejectionContext.format_for_prompt`. -/
def RejectionContext.format_for_prompt (ctx : RejectionContext) : String :=
  if ctx.reasons.isEmpty then ""
  else
    joinNl (["**Previous iteration was REJECTED for the following reasons:**", ""]
      ++ numberReasons 1 ctx.reasons
      ++ ["", "Please address these concerns in your revised proposal."])

/-- The literal injection markers, in the order the source lists them. -/
def injectionMarkers : List (List Char) :=
  ["## Deliverables".toList, "## Your Task".toList, "## Requirements".toList, "---".toList]

/-- The injection point: minimum position of any found marker, with the
prompt length (end of string) as the starting accumulator. -/
def injection_point (p : List Char) : Nat :=
  injectionMarkers.foldl
    (fun acc m =>
      match subIdx m p with
      | some pos => min acc pos
      | none => acc)
    p.length

/-- The spliced context section (`"\n".join(context_section)`). -/
def contextBlock (ctx : RejectionContext) : String :=
  joinNl ["", "---", "", ctx.format_for_prompt, "", "---", ""]

/-- `inject_context_into_prompt(base_prompt, context)`. -/
def inject_context_into_prompt (base_prompt : String) :
    Option RejectionContext → String
  | none => base_prompt
  | some ctx =>
      if ctx.reasons.isEmpty then base_prompt
      else
        let l := base_prompt.toList
        let ip := injection_point l
        String.mk (l.take ip) ++ contextBlock ctx ++ String.mk (l.drop ip)

/-! ## Model fallback selector (`src/studio/src/studio/telemetry.py`) -/

/-- Association-list lookup with default (Python `dict.get(k, d)`). -/
def lookupD (m : List (String × Int)) (k : String) (d : Int) : Int :=
  match m with
  | [] => d
  | (k', v) :: rest => if k' = k then v else lookupD rest k d

/-- Association-list update (Python `dict[k] = v`: existing keys keep
their position, new keys append). -/
def setKey (m : List (String × Int)) (k : String) (v : Int) : List (String × Int) :=
  match m with
  | [] => [(k, v)]
  | (k', v') :: rest => if k' = k then (k', v) :: rest else (k', v') :: setKey rest k v

/-- `ModelManager`'s mutable state: the candidate priority list, the
cooldown-until and overheat-until timestamp maps, and the last selected
model.  Timestamps are integer seconds (`time.time()` is passed in as
`now`). -/
structure ManagerState where
  candidates : List String
  cooldowns : List (String × Int)
  overheated : List (String × Int)
  last_selected : Option String
deriving DecidableEq

/-- Python's `x or d` for an optional integer (both `None` and `0` are
falsy and fall through to the default). -/
def pyOrInt (x : Option Int) (d : Int) : Int :=
  match x with
  | none => d
  | some v => if v = 0 then d else v

/-- `COOLDOWN_MIN_SECONDS`. -/
def COOLDOWN_MIN_SECONDS : Int := 5

/-- `COOLDOWN_DEFAULT_SECONDS`. -/
def COOLDOWN_DEFAULT_SECONDS : Int := 30

/-- `OVERHEAT_COOLDOWN_SECONDS` (environment default 45). -/
def OVERHEAT_COOLDOWN_SECONDS : Int := 45

/-- `ModelManager.mark_cooldown(model, retry_after, reason)`.
`monitorRA` is the rate-limit monitor's `last_retry_after`. -/
def mark_cooldown (st : ManagerState) (monitorRA : String → Option Int) (now : Int)
    (retry_after : Option Int) : Option String → ManagerState
  | none => st
  | some m =>
      if m = "" then st
      else
        let duration := max (pyOrInt retry_after (pyOrInt (monitorRA m) COOLDOWN_DEFAULT_SECONDS))
          COOLDOWN_MIN_SECONDS
        { st with cooldowns := setKey st.cooldowns m (now + duration) }

/-- `ModelManager.mark_overheated(model, reason, cooldown_seconds)`. -/
def mark_overheated (st : ManagerState) (now : Int)
    (cooldown_seconds : Option Int) : Option String → ManagerState
  | none => st
  | some m =>
      if m = "" then st
      else
        let duration := max (pyOrInt cooldown_seconds OVERHEAT_COOLDOWN_SECONDS)
          COOLDOWN_MIN_SECONDS
        { st with overheated := setKey st.overheated m (now + duration) }

/-- The attributes of the provider exception that
`_handle_model_failure` inspects (`status_code`/`status` and
`retry_after` already converted to integers, message lowercased on
use). -/
structure ModelError where
  message : String
  status_code : Option Int := none
  retry_after : Option Int := none

/-- `RATE_LIMIT_KEYWORDS` from `iteration.py`. -/
def RATE_LIMIT_KEYWORDS : List String := ["rate limit", "rate_limit", "quota", "exceeded"]

/-- `OVERLOAD_KEYWORDS` from `iteration.py`. -/
def OVERLOAD_KEYWORDS : List String :=
  ["temperature", "overloaded", "busy", "unavailable", "capacity"]

/-- The rate-limit test (line 164): status 429, or any rate-limit
keyword in the lowercased message. -/
def rateLimitedB (exc : ModelError) : Bool :=
  (exc.status_code == some 429)
    || RATE_LIMIT_KEYWORDS.any (fun k => containsChars k.toList (pyLower exc.message).toList)

/-- The overload test (line 176): a truthy status ≥ 500, or any
overload keyword in the lowercased message. -/
def overloadedB (exc : ModelError) : Bool :=
  (match exc.status_code with
   | some s => decide (500 ≤ s)
   | none => false)
    || OVERLOAD_KEYWORDS.any (fun k => containsChars k.toList (pyLower exc.message).toList)

/-- `_handle_model_failure(exc)`: returns `true` (RETRY) after marking
the current model, `false` (FATAL — the loop re-raises) otherwise.  The
guard `if not model: return False` makes the classification inert when
no model was ever selected. -/
def handleFailureFor (st : ManagerState) (monitorRA : String → Option Int)
    (now : Int) (exc : ModelError) : Option String → Bool × ManagerState
  | none => (false, st)
  | some model =>
      if model = "" then (false, st)
      else if rateLimitedB exc then
        (true, mark_cooldown st monitorRA now exc.retry_after (some model))
      else if overloadedB exc then
        (true, mark_overheated st now none (some model))
      else (false, st)

/-- `_handle_model_failure(exc)` proper, classifying against the
currently selected model. -/
def handle_model_failure (st : ManagerState) (monitorRA : String → Option Int)
    (now : Int) (exc : ModelError) : Bool × ManagerState :=
  handleFailureFor st monitorRA now exc st.last_selected

/-- `ModelManager._available_candidates(now)`: candidates whose cooldown
and overheat timestamps have both elapsed. -/
def available_candidates (st : ManagerState) (now : Int) : List String :=
  st.candidates.filter fun m =>
    decide (lookupD st.cooldowns m 0 ≤ now) && decide (lookupD st.overheated m 0 ≤ now)

/-- `ModelManager.select_model()`.  `low` is the monitor's
`is_low_headroom`.  `none` models the `IndexError` Python raises when
the candidate list is empty (`preferred[0] if preferred else
available[0]` on empty lists). -/
def select_model (st : ManagerState) (low : String → Bool) (now : Int) :
    Option (String × ManagerState) :=
  let available :=
    if (available_candidates st now).isEmpty then st.candidates
    else available_candidates st now
  let preferred := available.filter (fun m => !low m)
  ((if preferred.isEmpty then available else preferred).head?).map
    (fun choice => (choice, { st with last_selected := some choice }))

/-! ## Shared lemmas -/

/-- The loop's history grows by at most one record per unit of fuel. -/
theorem kickoffLoop_length (turn : Nat → IterationInputs → Option String)
    (phase : String) (cap : Nat) :
    ∀ (fuel : Nat) (history : List IterationRecord) (verdict : String)
      (h' : List IterationRecord) (v' : String),
      kickoffLoop turn phase cap fuel history verdict = .ok (h', v') →
      h'.length ≤ history.length + fuel := by
  intro fuel
  induction fuel with
  | zero =>
      intro history verdict h' v' h
      rw [kickoffLoop] at h
      simp only [Except.ok.injEq, Prod.mk.injEq] at h
      obtain ⟨rfl, rfl⟩ := h
      simp
  | succ fuel ih =>
      intro history verdict h' v' h
      rw [kickoffLoop] at h
      cases hturn : turn history.length (buildInputs cap history (history.length + 1)) with
      | none => rw [hturn] at h; cases h
      | some s =>
          rw [hturn] at h
          simp only at h
          by_cases hc : phase = "studio" ∨
              (if phase = "studio" then verdict else extract_verdict s) = "APPROVED"
          · rw [if_pos hc] at h
            simp only [Except.ok.injEq, Prod.mk.injEq] at h
            obtain ⟨rfl, rfl⟩ := h
            simp
          · rw [if_neg hc] at h
            have := ih _ _ _ _ h
            simp at this
            omega

/-- For a non-studio phase, the loop breaks at the first approval: when
it returns a non-`APPROVED` final verdict no appended record is
`APPROVED`, and in every case no appended record other than the last one
is `APPROVED`. -/
theorem kickoffLoop_no_approved (turn : Nat → IterationInputs → Option String)
    (phase : String) (cap : Nat) (hphase : phase ≠ "studio") :
    ∀ (fuel : Nat) (history : List IterationRecord) (verdict : String)
      (h' : List IterationRecord) (v' : String),
      kickoffLoop turn phase cap fuel history verdict = .ok (h', v') →
      ((v' ≠ "APPROVED" → ∀ r ∈ h', r ∈ history ∨ r.verdict ≠ "APPROVED") ∧
        (∀ r ∈ h'.dropLast, r ∈ history ∨ r.verdict ≠ "APPROVED")) := by
  intro fuel
  induction fuel with
  | zero =>
      intro history verdict h' v' h
      rw [kickoffLoop] at h
      simp only [Except.ok.injEq, Prod.mk.injEq] at h
      obtain ⟨rfl, rfl⟩ := h
      constructor
      · intro _ r hr
        exact Or.inl hr
      · intro r hr
        exact Or.inl (List.dropLast_sublist _ |>.mem hr)
  | succ fuel ih =>
      intro history verdict h' v' h
      rw [kickoffLoop] at h
      cases hturn : turn history.length (buildInputs cap history (history.length + 1)) with
      | none => rw [hturn] at h; cases h
      | some s =>
          rw [hturn] at h
          simp only at h
          rw [if_neg hphase, if_neg hphase] at h
          by_cases happ : extract_verdict s = "APPROVED"
          · rw [if_pos (Or.inr happ)] at h
            simp only [Except.ok.injEq, Prod.mk.injEq] at h
            obtain ⟨rfl, rfl⟩ := h
            constructor
            · intro hv
              exact absurd happ hv
            · intro r hr
              rw [List.dropLast_concat] at hr
              exact Or.inl hr
          · rw [if_neg (by simp [hphase, happ])] at h
            have hrec := ih _ _ _ _ h
            constructor
            · intro hv r hr
              rcases hrec.1 hv r hr with hmem | hne
              · rcases List.mem_append.mp hmem with hmem' | hmem'
                · exact Or.inl hmem'
                · simp at hmem'
                  subst hmem'
                  exact Or.inr happ
              · exact Or.inr hne
            · intro r hr
              rcases hrec.2 r hr with hmem | hne
              · rcases List.mem_append.mp hmem with hmem' | hmem'
                · exact Or.inl hmem'
                · simp at hmem'
                  subst hmem'
                  exact Or.inr happ
              · exact Or.inr hne

/-! ## C1 -/

/-- C1: for every non-studio phase, `run_iterative_kickoff` stops at the
first `APPROVED` verdict or after the iteration cap: concretely, with
scripted responses `REJECTED` then `APPROVED` and `max_iterations=5`
(implementation turn returning nothing) it yields `iterations_run = 2`,
`accepted = true`, `limit_reached = false`; with two `REJECTED`
responses and `max_iterations=2` it yields `iterations_run = 2`,
`accepted = false`, `limit_reached = true`; and in general a successful
run performs at most `cap` rounds (plus one implementation record), a
non-accepted run performs at most `cap` rounds none of which is
`APPROVED`, and no record before the final two is ever `APPROVED`. -/
theorem run_iterative_kickoff_stops_on_approval_or_cap :
    ((run_iterative_kickoff
        (scriptTurn ["Some critique...\nVERDICT: REJECTED", "Improved plan!\nVERDICT: APPROVED"])
        (fun _ => none) "market" (some 5)).map
      (fun r => (r.iterations_run, r.accepted, r.limit_reached)) = .ok (2, true, false)) ∧
    ((run_iterative_kickoff
        (scriptTurn ["Still bad.\nVERDICT: REJECTED", "Nope.\nVERDICT: REJECTED"])
        (fun _ => none) "design" (some 2)).map
      (fun r => (r.iterations_run, r.accepted, r.limit_reached)) = .ok (2, false, true)) ∧
    (∀ (phase : String) (turn : Nat → IterationInputs → Option String)
        (implementation_turn : String → Option String) (cap : Option Int)
        (r : KickoffOutcome),
      phase ≠ "studio" →
      run_iterative_kickoff turn implementation_turn phase cap = .ok r →
      r.iterations_run ≤ r.max_iterations + 1 ∧
        (r.accepted = false →
          r.iterations_run ≤ r.max_iterations ∧ ∀ rec ∈ r.history, rec.verdict ≠ "APPROVED") ∧
        (∀ rec ∈ r.history.dropLast.dropLast, rec.verdict ≠ "APPROVED")) := by
  refine ⟨by rfl, by rfl, ?_⟩
  intro phase turn implT cap r hphase hrun
  rw [run_iterative_kickoff] at hrun
  cases hk : kickoffLoop turn phase (safe_max_iterations cap) (safe_max_iterations cap) []
      "UNKNOWN" with
  | error e => rw [hk] at hrun; cases hrun
  | ok p =>
      obtain ⟨h', v'⟩ := p
      rw [hk] at hrun
      simp only [bind, Except.bind] at hrun
      have hlen : h'.length ≤ safe_max_iterations cap := by
        have := kickoffLoop_length turn phase (safe_max_iterations cap) _ _ _ _ _ hk
        simpa using this
      have hnoap := kickoffLoop_no_approved turn phase (safe_max_iterations cap) hphase
        _ _ _ _ _ hk
      have hdl : ∀ rec ∈ h'.dropLast, rec.verdict ≠ "APPROVED" := by
        intro rec hrec
        rcases hnoap.2 rec hrec with hin | hne
        · cases hin
        · exact hne
      by_cases happ : v' = "APPROVED"
      · rw [if_pos ⟨happ, hphase⟩] at hrun
        have hacc : decide (v' = "APPROVED") = true := by simp [happ]
        cases himpl : implT (h'.getLastD
            { iteration := 0, result := "", verdict := "UNKNOWN" }).result with
        | none =>
            rw [himpl] at hrun
            simp only [applyImplementation] at hrun
            simp only [Except.ok.injEq] at hrun
            subst hrun
            refine ⟨by simpa using Nat.le_succ_of_le hlen, ?_, ?_⟩
            · intro hfalse
              simp only [hacc] at hfalse
              cases hfalse
            · intro rec hrec
              simp only at hrec
              exact hdl rec (List.dropLast_sublist _ |>.mem hrec)
        | some impl =>
            rw [himpl] at hrun
            simp only [applyImplementation] at hrun
            by_cases hemp : impl ≠ ""
            · rw [if_pos hemp] at hrun
              simp only [Except.ok.injEq] at hrun
              subst hrun
              refine ⟨by simpa using hlen, ?_, ?_⟩
              · intro hfalse
                simp only [hacc] at hfalse
                cases hfalse
              · intro rec hrec
                simp only [List.dropLast_concat] at hrec
                exact hdl rec hrec
            · rw [if_neg hemp] at hrun
              simp only [Except.ok.injEq] at hrun
              subst hrun
              refine ⟨by simpa using Nat.le_succ_of_le hlen, ?_, ?_⟩
              · intro hfalse
                simp only [hacc] at hfalse
                cases hfalse
              · intro rec hrec
                simp only at hrec
                exact hdl rec (List.dropLast_sublist _ |>.mem hrec)
      · rw [if_neg (fun hc => happ hc.1)] at hrun
        simp only [Except.ok.injEq] at hrun
        subst hrun
        have hall : ∀ rec ∈ h', rec.verdict ≠ "APPROVED" := by
          intro rec hrec
          rcases hnoap.1 happ rec hrec with hin | hne
          · cases hin
          · exact hne
        refine ⟨by simpa using Nat.le_succ_of_le hlen, ?_, ?_⟩
        · intro _
          exact ⟨by simpa using hlen, hall⟩
        · intro rec hrec
          simp only at hrec
          exact hall rec
            ((List.dropLast_sublist _).mem ((List.dropLast_sublist _).mem hrec))

/-- The full outcome of the concrete two-rejection run (used by the C1
witness). -/
def outTwoRejected : KickoffOutcome :=
  { result := "Nope.\nVERDICT: REJECTED", verdict := "REJECTED", iterations_run := 2,
    history := [
      { iteration := 1, result := "Still bad.\nVERDICT: REJECTED", verdict := "REJECTED" },
      { iteration := 2, result := "Nope.\nVERDICT: REJECTED", verdict := "REJECTED" }],
    accepted := false, limit_reached := true, max_iterations := 2 }

/-- Witness for C1: the universal stopping clause instantiated at the
concrete two-rejection run with `phase = "design"`. -/
theorem run_iterative_kickoff_stops_witness :
    outTwoRejected.iterations_run ≤ outTwoRejected.max_iterations :=
  ((run_iterative_kickoff_stops_on_approval_or_cap.2.2 "design"
      (scriptTurn ["Still bad.\nVERDICT: REJECTED", "Nope.\nVERDICT: REJECTED"])
      (fun _ => none) (some 2) outTwoRejected (by decide) (by rfl)).2.1 (by rfl)).1

/-! ## C10 -/

/-- C10: when the agent-turn capability succeeds but returns the absent
value (`crew.kickoff` returning Python `None`), the loop raises the
"all configured models failed" runtime error instead of recording the
round — even though no model attempt failed (the modelled turn never
throws at all). -/
theorem kickoff_none_result_raises_all_models_failed :
    ∀ implementation_turn : String → Option String,
      run_iterative_kickoff (fun _ _ => none) implementation_turn "market" (some 3)
        = .error "All configured models failed before producing a result." := by
  intro implT
  rfl

/-! ## C2 -/

/-- `allocLoop` characterized: every scope except the last receives its
proportional `scopeShare`; the last receives the initial remainder minus
the sum of the other shares. -/
theorem allocLoop_eq (budget tot : Nat) :
    ∀ (init : List ScopeConfig) (lastS : ScopeConfig) (rem : Int),
      allocLoop budget tot (init ++ [lastS]) rem
        = init.map (fun s => (s.name, scopeShare budget tot s))
          ++ [(lastS.name, rem - (init.map (fun s => scopeShare budget tot s)).sum)] := by
  intro init
  induction init with
  | nil =>
      intro lastS rem
      simp [allocLoop]
  | cons x init ih =>
      intro lastS rem
      rcases hin : init ++ [lastS] with _ | ⟨y, t⟩
      · cases init <;> simp at hin
      · rw [List.cons_append, hin]
        simp only [allocLoop]
        rw [← hin, ih lastS (rem - scopeShare budget tot x)]
        simp [sub_sub]

/-- C2 (amended): `allocate_iterations` is an exact passthrough when the
budget is absent or equals the config total; otherwise every scope
except the last receives
`max(1, int(total_budget * (max_iterations / config_total)))` computed
in IEEE binary64 arithmetic exactly as Python evaluates it (which is
not the exact rational floor: see the counterexample), the last scope
receives the remaining budget, the allocations always sum to exactly
the budget, and declared shares 4/3/1 with `total_budget = 10` yield
5, 3, 2. -/
theorem allocate_iterations_spec (cfg : ScopesConfig) (hne : cfg.scopes ≠ []) :
    (allocate_iterations cfg none
        = cfg.scopes.map (fun s => (s.name, (s.max_iterations : Int)))) ∧
    (allocate_iterations cfg (some cfg.total_iterations)
        = cfg.scopes.map (fun s => (s.name, (s.max_iterations : Int)))) ∧
    (∀ budget : Nat, budget ≠ cfg.total_iterations →
        allocate_iterations cfg (some budget)
          = cfg.scopes.dropLast.map
              (fun s => (s.name, scopeShare budget cfg.total_iterations s))
            ++ [((cfg.scopes.getLast hne).name,
                 (budget : Int)
                   - (cfg.scopes.dropLast.map
                        (fun s => scopeShare budget cfg.total_iterations s)).sum)]) ∧
    (∀ budget : Nat,
        ((allocate_iterations cfg (some budget)).map Prod.snd).sum = (budget : Int)) ∧
    allocate_iterations ⟨[⟨"high", "architecture", 4⟩, ⟨"mid", "design", 3⟩,
        ⟨"low", "polish", 1⟩]⟩ (some 10) = [("high", 5), ("mid", 3), ("low", 2)] := by
  have key : ∀ budget : Nat, budget ≠ cfg.total_iterations →
      allocate_iterations cfg (some budget)
        = cfg.scopes.dropLast.map
            (fun s => (s.name, scopeShare budget cfg.total_iterations s))
          ++ [((cfg.scopes.getLast hne).name,
               (budget : Int)
                 - (cfg.scopes.dropLast.map
                      (fun s => scopeShare budget cfg.total_iterations s)).sum)] := by
    intro budget hb
    have hsplit := List.dropLast_append_getLast hne
    calc allocate_iterations cfg (some budget)
        = allocLoop budget cfg.total_iterations cfg.scopes (budget : Int) := by
          simp only [allocate_iterations]
          rw [if_neg hb]
      _ = allocLoop budget cfg.total_iterations
            (cfg.scopes.dropLast ++ [cfg.scopes.getLast hne]) (budget : Int) := by
          rw [hsplit]
      _ = _ := by
          rw [allocLoop_eq]
  refine ⟨by simp [allocate_iterations], by simp [allocate_iterations], key, ?_, by rfl⟩
  intro budget
  by_cases hb : budget = cfg.total_iterations
  · subst hb
    have hpass : allocate_iterations cfg (some cfg.total_iterations)
        = cfg.scopes.map (fun s => (s.name, (s.max_iterations : Int))) := by
      simp [allocate_iterations]
    rw [hpass, List.map_map, ScopesConfig.total_iterations, Nat.cast_list_sum, List.map_map]
    rfl
  · rw [key budget hb]
    simp only [List.map_append, List.map_map, List.sum_append, List.map_cons,
      List.map_nil, List.sum_cons, List.sum_nil]
    have hfun : (Prod.snd ∘ fun s : ScopeConfig =>
          (s.name, scopeShare budget cfg.total_iterations s))
        = fun s : ScopeConfig => scopeShare budget cfg.total_iterations s := rfl
    rw [hfun]
    ring

/-- Witness for C2: the passthrough clause at a concrete three-scope
configuration. -/
theorem allocate_iterations_spec_witness :
    allocate_iterations ⟨[⟨"high", "architecture", 4⟩, ⟨"mid", "design", 3⟩,
        ⟨"low", "polish", 1⟩]⟩ none = [("high", 4), ("mid", 3), ("low", 1)] := by
  have h := (allocate_iterations_spec ⟨[⟨"high", "architecture", 4⟩, ⟨"mid", "design", 3⟩,
      ⟨"low", "polish", 1⟩]⟩ (by simp)).1
  simpa using h

/-- Counterexample for C2: the non-last share is computed with binary64
float arithmetic, not the exact rational floor of the claim. With
declared shares 7 and 3 (config total 10) and `total_budget = 90`,
Python's `int(90 * (7/10))` evaluates to 62 — the double closest to
7/10 is slightly below it, so the product falls just under 63 — and the
program allocates 62/28, while the exact floor formula
`max(1, ⌊90 * 7 / 10⌋)` of the claim gives 63 for the first scope. -/
theorem allocate_iterations_float_counterexample :
    allocate_iterations ⟨[⟨"major", "mechanics", 7⟩, ⟨"minor", "polish", 3⟩]⟩ (some 90)
      = [("major", 62), ("minor", 28)] ∧
    scopeShare 90 10 ⟨"major", "mechanics", 7⟩ = 62 ∧
    max 1 ((90 * 7 / 10 : Nat) : Int) = 63 := by
  exact ⟨by decide, by decide, by decide⟩

/-! ## C3 -/

/-- C3: for every input text, `extract_rejection_reasons` returns at
most 5 reasons; every returned reason (the markdown-stripped form the
cleanup stage produces) has length strictly greater than 15; and the
returned list is a sublist of the cleaned candidate reasons, preserving
discovery order. -/
theorem extract_rejection_reasons_bounded (text : String) :
    (extract_rejection_reasons text).length ≤ 5 ∧
    (∀ r ∈ extract_rejection_reasons text, r.length > 15) ∧
    (extract_rejection_reasons text).Sublist
      ((strategyReasons (scopedContent text.toList)).map cleanReason) := by
  unfold extract_rejection_reasons
  cases hg : containsChars "REJECTED".toList (text.toList.map upChar) with
  | false =>
      refine ⟨by simp, by simp, by simp⟩
  | true =>
      rw [if_neg (by simp)]
      refine ⟨List.length_take_le _ _, ?_, ?_⟩
      · intro r hr
        have hmem := List.mem_of_mem_take hr
        have hf := List.mem_filter.mp hmem
        simpa using hf.2
      · exact (List.take_sublist _ _).trans (List.filter_sublist _)

set_option maxRecDepth 8192 in
/-- Witness for C3: the cap and the per-member length bound at a
concrete rejection. -/
theorem extract_rejection_reasons_bounded_witness :
    (extract_rejection_reasons
        "VERDICT: REJECTED\n\n1. Missing market validation data\n2. Unclear target audience definition\n").length
      ≤ 5 ∧
    ("Missing market validation data" : String).length > 15 :=
  ⟨(extract_rejection_reasons_bounded _).1,
    (extract_rejection_reasons_bounded
        "VERDICT: REJECTED\n\n1. Missing market validation data\n2. Unclear target audience definition\n").2.1
      "Missing market validation data" (by decide)⟩

/-! ## C4 -/

/-- C4: `extract_rejection_reasons` is total on arbitrary text, and when
the case-insensitive substring `REJECTED` is absent it returns the empty
sequence immediately. -/
theorem extract_rejection_reasons_empty_without_rejected (text : String)
    (h : containsChars "REJECTED".toList (text.toList.map upChar) = false) :
    extract_rejection_reasons text = [] := by
  unfold extract_rejection_reasons
  rw [h]
  simp

/-- Witness for C4: a concrete text with no `REJECTED` substring. -/
theorem extract_rejection_reasons_empty_witness :
    extract_rejection_reasons "All good here, ship it." = [] :=
  extract_rejection_reasons_empty_without_rejected _ (by decide)

/-! ## C5 -/

/-- A case-insensitive prefix test only inspects as many characters as
the pattern has, so a sufficiently long left part of an append decides
it. -/
theorem ciStartsWith_append (pat : List Char) :
    ∀ (a b : List Char), pat.length ≤ a.length →
      ciStartsWith pat (a ++ b) = ciStartsWith pat a := by
  induction pat with
  | nil => intro a b _; rfl
  | cons p ps ih =>
      intro a b hlen
      cases a with
      | nil => exact absurd hlen (by simp)
      | cons c cs =>
          simp only [List.cons_append, ciStartsWith]
          show (decide (upChar c = p) && ciStartsWith ps (cs ++ b))
              = (decide (upChar c = p) && ciStartsWith ps cs)
          rw [ih cs b (by simpa using hlen)]

/-- `dropWhile` that stops strictly inside the left part of an append
ignores the right part. -/
theorem dropWhile_append_stop (p : Char → Bool) :
    ∀ (a b : List Char), a.dropWhile p ≠ [] →
      (a ++ b).dropWhile p = a.dropWhile p ++ b := by
  intro a
  induction a with
  | nil => intro b h; exact absurd rfl h
  | cons c cs ih =>
      intro b h
      by_cases hc : p c = true
      · have h' : cs.dropWhile p ≠ [] := by
          simpa [List.dropWhile_cons, hc] using h
        simp [List.dropWhile_cons, hc, ih b h']
      · simp [List.dropWhile_cons, hc]

/-- `takeWhile` over an append whose left part satisfies the predicate
everywhere. -/
theorem takeWhile_append_all (p : Char → Bool) :
    ∀ (a b : List Char), (∀ c ∈ a, p c = true) →
      (a ++ b).takeWhile p = a ++ b.takeWhile p := by
  intro a
  induction a with
  | nil => intro b _; rfl
  | cons c cs ih =>
      intro b h
      have hc := h c (List.mem_cons_self _ _)
      simp [List.takeWhile_cons, hc,
        ih b (fun x hx => h x (List.mem_cons_of_mem _ hx))]

/-- The lazy `.+?\n\n` search steps over any newline-free non-empty
prefix and captures from the text after the first blank line. -/
theorem chunkScanF_skip :
    ∀ (l body : List Char) (fuel : Nat),
      (∀ c ∈ l, c ≠ '\n') → body ≠ [] → l.length + 1 ≤ fuel →
      chunkScanF fuel (l ++ '\n' :: '\n' :: body) = captureA body := by
  intro l
  induction l with
  | nil =>
      intro body fuel _ hb hf
      cases fuel with
      | zero => omega
      | succ f =>
          cases body with
          | nil => exact absurd rfl hb
          | cons b0 brest => rfl
  | cons c cs ih =>
      intro body fuel hl hb hf
      cases fuel with
      | zero => simp at hf
      | succ f =>
          have hc : ¬ c = '\n' := hl c (List.mem_cons_self _ _)
          rw [List.cons_append, chunkScanF, if_neg (fun h => hc h.1)]
          exact ih body f (fun x hx => hl x (List.mem_cons_of_mem _ hx)) hb
            (by simp at hf ⊢; omega)

/-- Universal behaviour of the section regex on a header-led text: for
every first chunk (non-empty, newline-free, not starting with
whitespace) and every non-empty body after the blank line, the capture
starts at the body — the first chunk is consumed by `.+?\n\n` and never
captured. -/
theorem sectionScope_skips_first_chunk (c0 : Char) (crest body : List Char)
    (hc0 : isPySpace c0 = false)
    (hnl : ∀ c ∈ c0 :: crest, c ≠ '\n')
    (hb : body ≠ []) :
    sectionScope ("## Issues\n\n".toList ++ ((c0 :: crest) ++ ("\n\n".toList ++ body)))
      = captureA body := by
  cases body with
  | nil => exact absurd rfl hb
  | cons b0 brest =>
  set X : List Char := (c0 :: crest) ++ ("\n\n".toList ++ (b0 :: brest)) with hX
  have e1 : (" Issues\n\n".toList ++ X).dropWhile isPySpace = "Issues\n\n".toList ++ X := by
    rw [dropWhile_append_stop isPySpace _ X (by decide),
      show (" Issues\n\n".toList.dropWhile isPySpace) = "Issues\n\n".toList from by decide]
  have e2 : ciStartsWith "CRITICAL".toList ("Issues\n\n".toList ++ X) = false := by
    rw [ciStartsWith_append _ _ _ (by decide)]; decide
  have e3 : ciStartsWith "ISSUE".toList ("Issues\n\n".toList ++ X) = true := by
    rw [ciStartsWith_append _ _ _ (by decide)]; decide
  have e4 : ("Issues\n\n".toList ++ X).drop ("ISSUE".toList.length) = "s\n\n".toList ++ X := by
    rw [List.drop_append_of_le_length (by decide),
      show "Issues\n\n".toList.drop ("ISSUE".toList.length) = "s\n\n".toList from by decide]
  have e5 : ciStartsWith ['S'] ("s\n\n".toList ++ X) = true := by
    rw [ciStartsWith_append _ _ _ (by decide)]; decide
  have e6 : ("s\n\n".toList ++ X).drop 1 = "\n\n".toList ++ X := by
    rw [List.drop_append_of_le_length (by decide),
      show "s\n\n".toList.drop 1 = "\n\n".toList from by decide]
  have e7 : ("\n\n".toList ++ X).takeWhile isPySpace = "\n\n".toList := by
    rw [takeWhile_append_all isPySpace _ _ (by decide)]
    have hx : X.takeWhile isPySpace = [] := by
      rw [hX, List.cons_append, List.takeWhile_cons, hc0]
      rfl
    rw [hx, List.append_nil]
  have hTry : secTryAt (some "CRITICAL".toList) "ISSUE".toList (" Issues\n\n".toList ++ X)
      = captureA (b0 :: brest) := by
    simp only [secTryAt, e1, e2, Bool.false_eq_true, if_false]
    simp only [secBase, e3, if_true, e4, e5, e6, secAfterKeyword, e7]
    rw [List.drop_left, show ("\n\n".toList.length - 2) = 0 from by decide, tryKs,
      if_pos (by decide : "\n\n".toList.get? 0 = some '\n' ∧ "\n\n".toList.get? 1 = some '\n'),
      show "\n\n".toList.drop 2 = ([] : List Char) from by decide, List.nil_append, hX,
      List.cons_append, chunkCap,
      show ("\n\n".toList ++ b0 :: brest) = '\n' :: '\n' :: (b0 :: brest) from rfl]
    exact chunkScanF_skip crest (b0 :: brest) _
      (fun x hx => hnl x (List.mem_cons_of_mem _ hx)) (by simp)
      (by simp [List.length_append])
  have hScan : secScan (some "CRITICAL".toList) "ISSUE".toList
      ("## Issues\n\n".toList ++ X) = captureA (b0 :: brest) := by
    rw [secScan,
      show ("## Issues\n\n".toList ++ X) = '#' :: '#' :: (" Issues\n\n".toList ++ X) from rfl,
      secScanF, hTry]
    rfl
  rw [sectionScope, hScan]
  rfl

set_option maxRecDepth 16384 in
/-- Counterexample for C5: on a rejected text whose `## Issues` section
body starts with a reason item in the first paragraph directly after the
header, that item is NOT included in the scoped sub-text and is NOT
extracted — the section regex's `.+?\n\n` consumes the whole first
blank-line-terminated chunk, so only the second item survives. -/
theorem extract_rejection_reasons_first_paragraph_dropped :
    extract_rejection_reasons
        "VERDICT: REJECTED\n\n## Issues\n\n1. First reason paragraph is long enough\n\n2. Second reason paragraph is long enough\n"
      = ["Second reason paragraph is long enough"] ∧
    ¬("First reason paragraph is long enough" ∈
        extract_rejection_reasons
          "VERDICT: REJECTED\n\n## Issues\n\n1. First reason paragraph is long enough\n\n2. Second reason paragraph is long enough\n") := by
  have h : extract_rejection_reasons
      "VERDICT: REJECTED\n\n## Issues\n\n1. First reason paragraph is long enough\n\n2. Second reason paragraph is long enough\n"
      = ["Second reason paragraph is long enough"] := by rfl
  refine ⟨h, ?_⟩
  rw [h]
  decide

set_option maxRecDepth 16384 in
/-- C5 (amended): the code scopes subsequent strategies to the portion
of the section body that FOLLOWS the first blank-line-terminated chunk
after the header (up to the next `##` header or end of text); a reason
item in the first paragraph directly after the header is consumed by
that chunk and excluded.  Universally: for EVERY text of the form
`"## Issues\n\n" ++ chunk ++ "\n\n" ++ body` where the chunk is
non-empty, newline-free and does not start with whitespace and the body
is non-empty, the section-scoping step returns exactly the capture of
the body (its prefix up to the next `\n##` or before a trailing
newline), so the chunk — and any reason item inside it — is excluded
from the scoped sub-text handed to the remaining strategies.  Also
witnessed end-to-end on representative rejected texts: an intro
sentence after `## Critical Issues` is skipped and the numbered items
after it are extracted up to the next `##` header; a numbered item in
the first paragraph after `## Reasons` is skipped while the bullet
items of the following chunk are extracted. -/
theorem extract_rejection_reasons_section_scoping_amended :
    (∀ (c0 : Char) (crest body : List Char),
        isPySpace c0 = false →
        (∀ c ∈ c0 :: crest, c ≠ '\n') →
        body ≠ [] →
        sectionScope
            ("## Issues\n\n".toList ++ ((c0 :: crest) ++ ("\n\n".toList ++ body)))
          = captureA body ∧
        ∀ g, captureA body = some g →
          scopedContent
              ("## Issues\n\n".toList ++ ((c0 :: crest) ++ ("\n\n".toList ++ body)))
            = g) ∧
    (sectionScope
        "VERDICT: REJECTED\n\n## Critical Issues\n\nThe following problems were found:\n\n1. Alpha problem description is long\n2. Beta problem description is long\n\n## Next\n\nignored tail".toList
      = some "1. Alpha problem description is long\n2. Beta problem description is long\n".toList) ∧
    (extract_rejection_reasons
        "VERDICT: REJECTED\n\n## Critical Issues\n\nThe following problems were found:\n\n1. Alpha problem description is long\n2. Beta problem description is long\n\n## Next\n\nignored tail"
      = ["Alpha problem description is long", "Beta problem description is long"]) ∧
    (sectionScope
        "VERDICT: REJECTED\n\n## Reasons\n\n1. Hidden early reason which is long\n\n- Bullet alpha is long enough yes\n- Bullet beta is long enough okay\n".toList
      = some "- Bullet alpha is long enough yes\n- Bullet beta is long enough okay".toList) ∧
    (extract_rejection_reasons
        "VERDICT: REJECTED\n\n## Reasons\n\n1. Hidden early reason which is long\n\n- Bullet alpha is long enough yes\n- Bullet beta is long enough okay\n"
      = ["Bullet alpha is long enough yes", "Bullet beta is long enough okay"]) := by
  refine ⟨?_, by rfl, by rfl, by rfl, by rfl⟩
  intro c0 crest body hc0 hnl hb
  have h := sectionScope_skips_first_chunk c0 crest body hc0 hnl hb
  refine ⟨h, ?_⟩
  intro g hg
  rw [scopedContent, h, hg]

/-- Witness for the amended C5: the universal scoping clause applied to
a concrete chunk and body. -/
theorem extract_rejection_reasons_section_scoping_witness :
    sectionScope
        ("## Issues\n\n".toList ++ (('T' :: "his intro chunk".toList)
          ++ ("\n\n".toList ++ "- Real reason item\n".toList)))
      = captureA "- Real reason item\n".toList :=
  (extract_rejection_reasons_section_scoping_amended.1 'T' "his intro chunk".toList
    "- Real reason item\n".toList (by decide) (by decide) (by decide)).1

/-! ## C6 -/

/-- C6: the injector is the identity when the context is absent or has
zero reasons. -/
theorem inject_context_identity :
    (∀ p : String, inject_context_into_prompt p none = p) ∧
    (∀ (p : String) (ctx : RejectionContext), ctx.reasons = [] →
      inject_context_into_prompt p (some ctx) = p) := by
  constructor
  · intro p
    rfl
  · intro p ctx h
    rw [inject_context_into_prompt]
    rw [if_pos (by simp [h])]

/-- Witness for C6: the empty-reasons identity at a concrete prompt. -/
theorem inject_context_identity_witness :
    inject_context_into_prompt "## Your Task\nWrite things."
        (some ⟨3, some "product", [], "old text"⟩)
      = "## Your Task\nWrite things." :=
  inject_context_identity.2 _ _ rfl

/-! ## C8 -/

/-- Updating a key and reading it back yields the stored value. -/
theorem lookupD_setKey (m : List (String × Int)) (k : String) (v d : Int) :
    lookupD (setKey m k v) k d = v := by
  induction m with
  | nil => simp [setKey, lookupD]
  | cons p rest ih =>
      obtain ⟨k', v'⟩ := p
      by_cases hk : k' = k
      · simp [setKey, lookupD, hk]
      · simp [setKey, lookupD, hk, ih]

/-- C8: with a currently selected model, a 429 status or rate-limit
vocabulary marks the model for cooldown (a future timestamp at least 5
seconds ahead) and retries; otherwise a status ≥ 500 or overload
vocabulary marks it overheated and retries; otherwise the failure is
fatal and the state is untouched (the loop re-raises the exception). -/
theorem classify_failure_spec (st : ManagerState) (monitorRA : String → Option Int)
    (now : Int) (exc : ModelError) (m : String)
    (hm : st.last_selected = some m) (hne : m ≠ "") :
    (rateLimitedB exc = true →
      handle_model_failure st monitorRA now exc
          = (true, mark_cooldown st monitorRA now exc.retry_after (some m)) ∧
        ∃ d : Int, 5 ≤ d ∧
          lookupD (handle_model_failure st monitorRA now exc).2.cooldowns m 0 = now + d) ∧
    (rateLimitedB exc = false → overloadedB exc = true →
      handle_model_failure st monitorRA now exc
          = (true, mark_overheated st now none (some m)) ∧
        ∃ d : Int, 5 ≤ d ∧
          lookupD (handle_model_failure st monitorRA now exc).2.overheated m 0 = now + d) ∧
    (rateLimitedB exc = false → overloadedB exc = false →
      handle_model_failure st monitorRA now exc = (false, st)) := by
  have hred : handle_model_failure st monitorRA now exc
      = handleFailureFor st monitorRA now exc (some m) := by
    rw [handle_model_failure, hm]
  refine ⟨?_, ?_, ?_⟩
  · intro hrl
    have heq : handle_model_failure st monitorRA now exc
        = (true, mark_cooldown st monitorRA now exc.retry_after (some m)) := by
      rw [hred, handleFailureFor]
      rw [if_neg hne, if_pos hrl]
    refine ⟨heq, ?_⟩
    rw [heq]
    rw [mark_cooldown]
    rw [if_neg hne]
    refine ⟨max (pyOrInt exc.retry_after
        (pyOrInt (monitorRA m) COOLDOWN_DEFAULT_SECONDS)) COOLDOWN_MIN_SECONDS,
      le_max_right _ _, ?_⟩
    exact lookupD_setKey _ _ _ _
  · intro hrl hov
    have heq : handle_model_failure st monitorRA now exc
        = (true, mark_overheated st now none (some m)) := by
      rw [hred, handleFailureFor]
      rw [if_neg hne, if_neg (by simp [hrl]), if_pos hov]
    refine ⟨heq, ?_⟩
    rw [heq]
    rw [mark_overheated]
    rw [if_neg hne]
    refine ⟨max (pyOrInt none OVERHEAT_COOLDOWN_SECONDS) COOLDOWN_MIN_SECONDS,
      le_max_right _ _, ?_⟩
    exact lookupD_setKey _ _ _ _
  · intro hrl hov
    rw [hred, handleFailureFor]
    rw [if_neg hne, if_neg (by simp [hrl]), if_neg (by simp [hov])]

/-- Witness for C8: a concrete 429 exception against a selected model. -/
theorem classify_failure_spec_witness :
    rateLimitedB ⟨"Too many requests", some 429, some 7⟩ = true ∧
    handle_model_failure ⟨["m1"], [], [], some "m1"⟩ (fun _ => none) 100
        ⟨"Too many requests", some 429, some 7⟩
      = (true, mark_cooldown ⟨["m1"], [], [], some "m1"⟩ (fun _ => none) 100
          (some 7) (some "m1")) :=
  ⟨by decide,
    ((classify_failure_spec ⟨["m1"], [], [], some "m1"⟩ (fun _ => none) 100
        ⟨"Too many requests", some 429, some 7⟩ "m1" rfl (by decide)).1 (by decide)).1⟩

/-! ## C9 -/

/-- Counterexample for C9: in the state where every candidate is in
cooldown and the first candidate is flagged low on headroom,
`select_model` returns the first NON-LOW candidate ("beta"), not the
first candidate of the full list ("alpha") as claimed; and in the
empty-candidates state (the manager's initial/reset state) it does raise
(`available[0]` on an empty list, modelled as `none`). -/
theorem select_model_counterexample :
    available_candidates ⟨["alpha", "beta"], [("alpha", 1000), ("beta", 1000)], [], none⟩ 10
        = [] ∧
    (⟨["alpha", "beta"], [("alpha", 1000), ("beta", 1000)], [], none⟩ :
        ManagerState).candidates.head? = some "alpha" ∧
    (select_model ⟨["alpha", "beta"], [("alpha", 1000), ("beta", 1000)], [], none⟩
        (fun m => m == "alpha") 10).map Prod.fst = some "beta" ∧
    ("beta" : String) ≠ "alpha" ∧
    select_model ⟨[], [], [], none⟩ (fun _ => false) 0 = none := by
  exact ⟨by rfl, by rfl, by rfl, by decide, by rfl⟩

/-- C9 (amended): whenever the candidate list is non-empty,
`select_model` returns (and never raises): the first candidate neither
in cooldown nor overheated nor low on headroom when one exists; else the
first merely available candidate; else — when no candidate is available
— the first candidate of the full list that is not flagged low, falling
back to the first of the full list only when every candidate is also
low-flagged.  With an empty candidate list (initial/reset state) the
Python code raises `IndexError`. -/
theorem select_model_cascade (st : ManagerState) (low : String → Bool) (now : Int)
    (h : st.candidates ≠ []) :
    (select_model st low now).isSome = true ∧
    (available_candidates st now ≠ [] →
      (available_candidates st now).filter (fun m => !low m) ≠ [] →
      (select_model st low now).map Prod.fst
        = ((available_candidates st now).filter (fun m => !low m)).head?) ∧
    (available_candidates st now ≠ [] →
      (available_candidates st now).filter (fun m => !low m) = [] →
      (select_model st low now).map Prod.fst = (available_candidates st now).head?) ∧
    (available_candidates st now = [] →
      st.candidates.filter (fun m => !low m) ≠ [] →
      (select_model st low now).map Prod.fst
        = (st.candidates.filter (fun m => !low m)).head?) ∧
    (available_candidates st now = [] →
      st.candidates.filter (fun m => !low m) = [] →
      (select_model st low now).map Prod.fst = st.candidates.head?) := by
  have hmap : ∀ l : List String,
      ((l.head?).map
          (fun choice => (choice, { st with last_selected := some choice }))).map
        Prod.fst = l.head? := by
    intro l
    cases l <;> rfl
  simp only [select_model]
  by_cases hA : (available_candidates st now).isEmpty
  · have hAe : available_candidates st now = [] := List.isEmpty_iff.mp hA
    rw [if_pos hA]
    by_cases hP : (st.candidates.filter (fun m => !low m)).isEmpty
    · have hPe : st.candidates.filter (fun m => !low m) = [] := List.isEmpty_iff.mp hP
      rw [if_pos hP]
      refine ⟨?_, ?_, ?_, ?_, ?_⟩
      · rcases hcand : st.candidates with _ | ⟨a, t⟩
        · exact absurd hcand h
        · simp [hcand]
      · intro hA' _
        exact absurd hAe hA'
      · intro hA' _
        exact absurd hAe hA'
      · intro _ hP'
        exact absurd hPe hP'
      · intro _ _
        exact hmap _
    · have hPne : st.candidates.filter (fun m => !low m) ≠ [] := by
        intro hcon
        rw [hcon] at hP
        exact hP rfl
      rw [if_neg hP]
      refine ⟨?_, ?_, ?_, ?_, ?_⟩
      · rcases hfe : st.candidates.filter (fun m => !low m) with _ | ⟨a, t⟩
        · exact absurd hfe hPne
        · simp [hfe]
      · intro hA' _
        exact absurd hAe hA'
      · intro hA' _
        exact absurd hAe hA'
      · intro _ _
        exact hmap _
      · intro _ hP'
        exact absurd hP' hPne
  · have hAne : available_candidates st now ≠ [] := by
      intro hcon
      rw [hcon] at hA
      exact hA rfl
    rw [if_neg hA]
    by_cases hP : ((available_candidates st now).filter (fun m => !low m)).isEmpty
    · have hPe : (available_candidates st now).filter (fun m => !low m) = [] :=
        List.isEmpty_iff.mp hP
      rw [if_pos hP]
      refine ⟨?_, ?_, ?_, ?_, ?_⟩
      · rcases hfe : available_candidates st now with _ | ⟨a, t⟩
        · exact absurd hfe hAne
        · simp [hfe]
      · intro _ hP'
        exact absurd hPe hP'
      · intro _ _
        exact hmap _
      · intro hA' _
        exact absurd hA' hAne
      · intro hA' _
        exact absurd hA' hAne
    · have hPne : (available_candidates st now).filter (fun m => !low m) ≠ [] := by
        intro hcon
        rw [hcon] at hP
        exact hP rfl
      rw [if_neg hP]
      refine ⟨?_, ?_, ?_, ?_, ?_⟩
      · rcases hfe : (available_candidates st now).filter (fun m => !low m) with _ | ⟨a, t⟩
        · exact absurd hfe hPne
        · simp [hfe]
      · intro _ _
        exact hmap _
      · intro _ hP'
        exact absurd hP' hPne
      · intro hA' _
        exact absurd hA' hAne
      · intro hA' _
        exact absurd hA' hAne

/-- Witness for C9: the never-raises clause at a concrete fresh
two-candidate state. -/
theorem select_model_cascade_witness :
    (select_model ⟨["x", "y"], [], [], none⟩ (fun _ => false) 0).isSome = true :=
  (select_model_cascade ⟨["x", "y"], [], [], none⟩ (fun _ => false) 0 (by simp)).1

/-! ## C7 -/

/-- `pat` occurs in `l` at position `i`. -/
def occursAt (l : List Char) (i : Nat) (pat : List Char) : Prop :=
  (l.drop i).take pat.length = pat

/-- The literal `## Deliverables` marker. -/
def delivChars : List Char := "## Deliverables".toList

/-- The banner line opening the injected context block. -/
def bannerChars : List Char :=
  "**Previous iteration was REJECTED for the following reasons:**".toList

/-- The first 68 characters of every injected context block. -/
def blockHeadStr : String :=
  "\n---\n\n**Previous iteration was REJECTED for the following reasons:**"

/-- `String.toList` distributes over append. -/
theorem toList_append (a b : String) : (a ++ b).toList = a.toList ++ b.toList := rfl

/-- `startsWithChars` tests prefix extraction. -/
theorem startsWithChars_iff (pat : List Char) :
    ∀ l : List Char, startsWithChars pat l = true ↔ l.take pat.length = pat := by
  induction pat with
  | nil =>
      intro l
      simp [startsWithChars]
  | cons p ps ih =>
      intro l
      cases l with
      | nil =>
          simp [startsWithChars]
      | cons c cs =>
          simp only [startsWithChars, Bool.and_eq_true, decide_eq_true_eq, ih,
            List.length_cons, List.take_succ_cons, List.cons.injEq]
          constructor
          · rintro ⟨rfl, h2⟩
            exact ⟨rfl, h2⟩
          · rintro ⟨rfl, h2⟩
            exact ⟨rfl, h2⟩

/-- `subIdx` is sound: a found index is an occurrence. -/
theorem subIdx_occursAt (pat : List Char) :
    ∀ (L : List Char) (j : Nat), subIdx pat L = some j → occursAt L j pat := by
  intro L
  induction L with
  | nil =>
      intro j h
      by_cases hs : startsWithChars pat [] = true
      · rw [subIdx, if_pos hs] at h
        injection h with h0
        subst h0
        exact (startsWithChars_iff pat []).mp hs
      · rw [subIdx, if_neg hs] at h
        cases h
  | cons c rest ih =>
      intro j h
      by_cases hs : startsWithChars pat (c :: rest) = true
      · rw [subIdx, if_pos hs] at h
        injection h with h0
        subst h0
        exact (startsWithChars_iff pat (c :: rest)).mp hs
      · rw [subIdx, if_neg hs] at h
        cases hsub : subIdx pat rest with
        | none =>
            rw [hsub] at h
            cases h
        | some j' =>
            rw [hsub] at h
            simp only [Option.map_some', Option.some.injEq] at h
            subst h
            exact ih j' hsub

/-- `subIdx` is minimal: every occurrence is at or after the found
index. -/
theorem subIdx_min (pat : List Char) :
    ∀ (L : List Char) (d j : Nat), subIdx pat L = some d → occursAt L j pat → d ≤ j := by
  intro L
  induction L with
  | nil =>
      intro d j hd _
      by_cases hs : startsWithChars pat [] = true
      · rw [subIdx, if_pos hs] at hd
        injection hd with h0
        omega
      · rw [subIdx, if_neg hs] at hd
        cases hd
  | cons c rest ih =>
      intro d j hd hj
      by_cases hs : startsWithChars pat (c :: rest) = true
      · rw [subIdx, if_pos hs] at hd
        injection hd with h0
        omega
      · rw [subIdx, if_neg hs] at hd
        cases hsub : subIdx pat rest with
        | none =>
            rw [hsub] at hd
            cases hd
        | some d' =>
            rw [hsub] at hd
            simp only [Option.map_some', Option.some.injEq] at hd
            cases j with
            | zero =>
                exfalso
                apply hs
                apply (startsWithChars_iff pat (c :: rest)).mpr
                simpa [occursAt] using hj
            | succ j' =>
                have hj' : occursAt rest j' pat := by
                  simpa [occursAt, List.drop] using hj
                have := ih d' j' hsub hj'
                omega

/-- An occurrence determines each character. -/
theorem occursAt_get (l : List Char) (i : Nat) (pat : List Char)
    (h : occursAt l i pat) : ∀ k, k < pat.length → l.get? (i + k) = pat.get? k := by
  intro k hk
  have h2 : pat.get? k = ((l.drop i).take pat.length).get? k := by rw [h]
  rw [h2, List.get?_take hk, List.get?_drop]

/-- Indexing past the left part of an append. -/
theorem get?_append_len (a b : List Char) (k : Nat) :
    (a ++ b).get? (a.length + k) = b.get? k := by
  induction a with
  | nil => simp
  | cons c t ih => simpa [Nat.succ_add] using ih

/-- Dropping past the left part of an append. -/
theorem drop_append_len (a b : List Char) (k : Nat) :
    (a ++ b).drop (a.length + k) = b.drop k := by
  induction a with
  | nil => simp
  | cons c t ih => simpa [Nat.succ_add] using ih

/-- The marker fold never grows its accumulator. -/
theorem ip_foldl_le_acc (p : List Char) :
    ∀ (ms : List (List Char)) (acc : Nat),
      List.foldl
          (fun acc m =>
            match subIdx m p with
            | some pos => min acc pos
            | none => acc)
          acc ms
        ≤ acc := by
  intro ms
  induction ms with
  | nil =>
      intro acc
      simp
  | cons m0 ms ih =>
      intro acc
      rw [List.foldl_cons]
      refine le_trans (ih _) ?_
      cases hsub : subIdx m0 p with
      | none => exact le_refl acc
      | some pos => exact min_le_left _ _

/-- The marker fold is bounded by every found marker position. -/
theorem ip_foldl_le_found (p : List Char) :
    ∀ (ms : List (List Char)) (acc : Nat) (m : List Char), m ∈ ms →
      ∀ j, subIdx m p = some j →
      List.foldl
          (fun acc m =>
            match subIdx m p with
            | some pos => min acc pos
            | none => acc)
          acc ms
        ≤ j := by
  intro ms
  induction ms with
  | nil =>
      intro acc m hm
      cases hm
  | cons m0 ms ih =>
      intro acc m hm j hj
      rw [List.foldl_cons]
      rcases List.mem_cons.mp hm with rfl | hm'
      · have hstep : (match subIdx m p with
            | some pos => min acc pos
            | none => acc) = min acc j := by rw [hj]
        rw [hstep]
        exact le_trans (ip_foldl_le_acc p ms _) (min_le_right _ _)
      · exact ih _ m hm' j hj

/-- The marker fold keeps its accumulator when no marker is found. -/
theorem ip_foldl_none (p : List Char) :
    ∀ (ms : List (List Char)) (acc : Nat), (∀ m ∈ ms, subIdx m p = none) →
      List.foldl
          (fun acc m =>
            match subIdx m p with
            | some pos => min acc pos
            | none => acc)
          acc ms
        = acc := by
  intro ms
  induction ms with
  | nil =>
      intro acc _
      rfl
  | cons m0 ms ih =>
      intro acc hall
      rw [List.foldl_cons]
      have h0 : subIdx m0 p = none := hall m0 (List.mem_cons_self _ _)
      have hstep : (match subIdx m0 p with
          | some pos => min acc pos
          | none => acc) = acc := by rw [h0]
      rw [hstep]
      exact ih acc (fun m hm => hall m (List.mem_cons_of_mem _ hm))

/-- The injection point never exceeds the prompt length. -/
theorem injection_point_le_length (p : List Char) : injection_point p ≤ p.length :=
  ip_foldl_le_acc p injectionMarkers p.length

/-- The context section skeleton: joining the seven-line scaffold around
any formatted text yields two `---` separators around it. -/
theorem joinNl_block (f : String) :
    joinNl ["", "---", "", f, "", "---", ""] = "\n---\n\n" ++ f ++ "\n\n---\n" := by
  have h0 : ∀ s : String, "" ++ s = s := fun s => rfl
  have h1 : ("\n---\n\n" : String) = "\n" ++ ("---" ++ ("\n" ++ "\n")) := rfl
  have h2 : ("\n\n---\n" : String) = "\n" ++ ("\n" ++ ("---" ++ ("\n" ++ ""))) := rfl
  simp only [joinNl, h0, h1, h2, String.append_assoc]

/-- The formatted rejection text starts with the banner line whenever
reasons exist. -/
theorem format_head (ctx : RejectionContext) (r : String) (rs : List String)
    (hr : ctx.reasons = r :: rs) :
    ctx.format_for_prompt
      = "**Previous iteration was REJECTED for the following reasons:**"
        ++ ("\n" ++ joinNl ("" :: (numberReasons 1 (r :: rs)
            ++ ["", "Please address these concerns in your revised proposal."]))) := by
  rw [RejectionContext.format_for_prompt, hr]
  rw [if_neg (by simp)]
  simp only [List.cons_append, List.nil_append, joinNl, String.append_assoc]

/-- Every injected context block starts with `\n---\n\n` followed by the
banner line. -/
theorem contextBlock_decomp (ctx : RejectionContext) (r : String) (rs : List String)
    (hr : ctx.reasons = r :: rs) :
    ∃ T : String, contextBlock ctx = blockHeadStr ++ T := by
  refine ⟨("\n" ++ joinNl ("" :: (numberReasons 1 (r :: rs)
      ++ ["", "Please address these concerns in your revised proposal."]))) ++ "\n\n---\n", ?_⟩
  rw [contextBlock, joinNl_block, format_head ctx r rs hr]
  have hmerge : blockHeadStr
      = ("\n---\n\n" : String)
        ++ "**Previous iteration was REJECTED for the following reasons:**" := rfl
  rw [hmerge]
  simp only [String.append_assoc]

set_option maxRecDepth 8192 in
/-- C7: with at least one reason, the injector splices the formatted
context block at the earliest position of any of the four literal
markers (end of string when none occurs), preserving the original
prompt before and after the injection point verbatim; consequently the
injected banner sits at offset 6 inside the spliced block and every
occurrence of `## Deliverables` in the output lies strictly after it
whenever that marker occurs in the prompt. -/
theorem inject_context_placement (p : String) (ctx : RejectionContext)
    (h : ctx.reasons ≠ []) :
    ((inject_context_into_prompt p (some ctx)).toList
        = p.toList.take (injection_point p.toList)
          ++ ((contextBlock ctx).toList ++ p.toList.drop (injection_point p.toList))) ∧
    (∀ m ∈ injectionMarkers, ∀ j, subIdx m p.toList = some j →
        injection_point p.toList ≤ j) ∧
    ((∀ m ∈ injectionMarkers, subIdx m p.toList = none) →
        injection_point p.toList = p.toList.length) ∧
    (∀ d, subIdx delivChars p.toList = some d →
        occursAt (inject_context_into_prompt p (some ctx)).toList
          (injection_point p.toList + 6) bannerChars ∧
        (∀ j, occursAt (inject_context_into_prompt p (some ctx)).toList j delivChars →
          injection_point p.toList + 6 < j)) := by
  obtain ⟨r, rs, hr⟩ : ∃ r rs, ctx.reasons = r :: rs := by
    cases hcr : ctx.reasons with
    | nil => exact absurd hcr h
    | cons r rs => exact ⟨r, rs, rfl⟩
  obtain ⟨T, hT⟩ := contextBlock_decomp ctx r rs hr
  have hmk : ∀ x : List Char, (String.mk x).toList = x := fun _ => rfl
  have hiple : injection_point p.toList ≤ p.toList.length := injection_point_le_length _
  have hpre : (p.toList.take (injection_point p.toList)).length = injection_point p.toList := by
    rw [List.length_take]
    omega
  have hout : (inject_context_into_prompt p (some ctx)).toList
      = p.toList.take (injection_point p.toList)
        ++ ((contextBlock ctx).toList ++ p.toList.drop (injection_point p.toList)) := by
    rw [inject_context_into_prompt]
    rw [if_neg (by simp [hr])]
    have hdata : ∀ a b : String, (a ++ b).data = a.data ++ b.data := fun _ _ => rfl
    have hmkd : ∀ x : List Char, (String.mk x).data = x := fun _ => rfl
    simp only [toList_append, hmk, hdata, hmkd, List.append_assoc]
  have hB : (contextBlock ctx).toList = blockHeadStr.toList ++ T.toList := by
    rw [hT, toList_append]
  have hBHlen : blockHeadStr.toList.length = 68 := by decide
  have hdlen : delivChars.length = 15 := by decide
  have hgetB : ∀ o : Nat, o < 68 →
      (inject_context_into_prompt p (some ctx)).toList.get? (injection_point p.toList + o)
        = blockHeadStr.toList.get? o := by
    intro o ho
    rw [hout]
    have hidx : injection_point p.toList + o
        = (p.toList.take (injection_point p.toList)).length + o := by rw [hpre]
    rw [hidx, get?_append_len, hB, List.append_assoc]
    rw [List.get?_append (by omega)]
  refine ⟨hout, ?_, ?_, ?_⟩
  · intro m hm j hj
    exact ip_foldl_le_found p.toList injectionMarkers p.toList.length m hm j hj
  · intro hnone
    exact ip_foldl_none p.toList injectionMarkers p.toList.length hnone
  · intro d hd
    have hipd : injection_point p.toList ≤ d :=
      ip_foldl_le_found p.toList injectionMarkers p.toList.length delivChars
        (by simp [injectionMarkers, delivChars]) d hd
    constructor
    · show ((inject_context_into_prompt p (some ctx)).toList.drop
          (injection_point p.toList + 6)).take bannerChars.length = bannerChars
      rw [hout]
      have hidx : injection_point p.toList + 6
          = (p.toList.take (injection_point p.toList)).length + 6 := by rw [hpre]
      rw [hidx, drop_append_len, hB, List.append_assoc]
      rw [List.drop_append_of_le_length (by omega)]
      have hdrop6 : blockHeadStr.toList.drop 6 = bannerChars := by decide
      rw [hdrop6]
      exact List.take_left _ _
    · intro j hocc
      by_cases hj6 : injection_point p.toList + 6 < j
      · exact hj6
      · exfalso
        push_neg at hj6
        by_cases hlt : j < injection_point p.toList
        · by_cases hfull : j + 15 ≤ injection_point p.toList
          · have hoccL : occursAt p.toList j delivChars := by
              have hocc' := hocc
              unfold occursAt at hocc' ⊢
              rw [hout] at hocc'
              rw [List.drop_append_of_le_length (by omega)] at hocc'
              rw [List.take_append_of_le_length
                (by rw [List.length_drop, hpre]; omega)] at hocc'
              rw [List.drop_take] at hocc'
              rw [List.take_take] at hocc'
              rw [min_eq_left (by omega)] at hocc'
              exact hocc'
            have hdj := subIdx_min delivChars p.toList d j hd hoccL
            omega
          · push_neg at hfull
            have hchar := occursAt_get _ _ _ hocc (injection_point p.toList - j)
              (by omega)
            rw [show j + (injection_point p.toList - j)
                = injection_point p.toList + 0 by omega] at hchar
            rw [hgetB 0 (by omega)] at hchar
            have hnl : ∀ k, k < 15 → delivChars.get? k ≠ some '\n' := by decide
            have h00 : blockHeadStr.toList.get? 0 = some '\n' := by decide
            rw [h00] at hchar
            exact hnl (injection_point p.toList - j) (by omega) hchar.symm
        · push_neg at hlt
          have hchar := occursAt_get _ _ _ hocc 0 (by omega)
          rw [Nat.add_zero] at hchar
          rw [show j = injection_point p.toList + (j - injection_point p.toList)
            by omega] at hchar
          rw [hgetB (j - injection_point p.toList) (by omega)] at hchar
          have hd0 : delivChars.get? 0 = some '#' := by decide
          rw [hd0] at hchar
          have hno : ∀ o, o ≤ 6 → blockHeadStr.toList.get? o ≠ some '#' := by decide
          exact hno (j - injection_point p.toList) (by omega) hchar

set_option maxRecDepth 8192 in
/-- Witness for C7: the banner sits right after the injection point on a
concrete prompt containing `## Deliverables`. -/
theorem inject_context_placement_witness :
    occursAt
      (inject_context_into_prompt "Intro\n\n## Deliverables\n\nStuff"
          (some ⟨2, none, ["Reason alpha beta gamma delta"], "t"⟩)).toList
      (injection_point "Intro\n\n## Deliverables\n\nStuff".toList + 6) bannerChars :=
  ((inject_context_placement "Intro\n\n## Deliverables\n\nStuff"
      ⟨2, none, ["Reason alpha beta gamma delta"], "t"⟩ (by simp)).2.2.2 7 (by decide)).1

/-- Witness for C10: the error is reached with a concrete implementation
turn in place. -/
theorem kickoff_none_result_witness :
    run_iterative_kickoff (fun _ _ => none) (fun _ => some "impl") "market" (some 3)
      = .error "All configured models failed before producing a result." :=
  kickoff_none_result_raises_all_models_failed (fun _ => some "impl")
